import Mathlib

set_option maxRecDepth 10000

/-!
Verification of the silence-aware audio split planner in
`funcs/subfuncs/find_and_split.py` (repository `whisper_checker`).

Times are modelled as exact rationals (`ℚ`).  The planning loop of
`split_audio` is embedded with an explicit fuel parameter; a separate
theorem shows that the fuel chosen by `planFuel` always suffices, so the
fueled function is a faithful rendering of the `while` loop.
-/

/-- A planned clip: `sequence_number` (`clip_num` in the source),
`source_start` (`current_pos`) and `source_end` (`split_point`). -/
structure ClipPlan where
  seq : ℕ
  source_start : ℚ
  source_end : ℚ
  deriving DecidableEq, Repr

/-- `start + (end - start) / 2`, the `silence_mid_point` of the source. -/
def silenceMidPoint (p : ℚ × ℚ) : ℚ :=
  p.1 + (p.2 - p.1) / 2

/-- One iteration of the `for start, end in silences` loop in `split_audio`:
the accumulator carries the current `best_silence` together with its recorded
`min_dist` (`none` models `best_silence = None`, `min_dist = inf`). -/
def bestStep (current_pos target : ℚ) (acc : Option ((ℚ × ℚ) × ℚ))
    (p : ℚ × ℚ) : Option ((ℚ × ℚ) × ℚ) :=
  if current_pos < p.1 then
    let d := |silenceMidPoint p - target|
    match acc with
    | none => some (p, d)
    | some (q, m) => if d < m then some (p, d) else some (q, m)
  else acc

/-- The silence-selection scan of `split_audio`: folds `bestStep` over the
detected silences in order and returns the chosen `best_silence`, if any. -/
def bestSilence (silences : List (ℚ × ℚ)) (current_pos target : ℚ) :
    Option (ℚ × ℚ) :=
  (silences.foldl (bestStep current_pos target) none).map Prod.fst

/-- The split point computed for cursor position `pos`: `total` when the
target time reaches past the end, otherwise the silenceMidPoint of the best
eligible silence, falling back to `total` when none is eligible. -/
def splitPoint (total target : ℚ) (silences : List (ℚ × ℚ)) (pos : ℚ) : ℚ :=
  if pos + target ≥ total then total
  else
    match bestSilence silences pos (pos + target) with
    | some p => silenceMidPoint p
    | none => total

/-- The `while current_pos < total_duration` loop of `split_audio`, with
explicit fuel.  `none` means the fuel ran out (shown impossible for
`planFuel` below); `some l` is the list of emitted clips. -/
def splitLoop (total target : ℚ) (silences : List (ℚ × ℚ)) :
    ℕ → ℚ → ℕ → Option (List ClipPlan)
  | 0, _, _ => none
  | fuel + 1, pos, n =>
    if pos < total then
      let sp := splitPoint total target silences pos
      if sp - pos < 1 then some []
      else
        match splitLoop total target silences fuel sp (n + 1) with
        | none => none
        | some rest => some (⟨n, pos, sp⟩ :: rest)
    else some []

/-- Enough fuel for the loop: each emitted clip advances the cursor by at
least one second, so `total.num + 1` iterations always finish (the
numerator bounds `⌈total⌉` from above since the denominator is positive). -/
def planFuel (total : ℚ) : ℕ :=
  total.num.toNat + 1

/-- The planner run from `current_pos = 0.0`, `clip_num = 1`. -/
def splitAudioOpt (total target : ℚ) (silences : List (ℚ × ℚ)) :
    Option (List ClipPlan) :=
  splitLoop total target silences (planFuel total) 0 1

/-- The emitted `ClipPlan` sequence of `split_audio`. -/
def plans (total target : ℚ) (silences : List (ℚ × ℚ)) : List ClipPlan :=
  (splitAudioOpt total target silences).getD []

/-- Round-half-to-even at integer precision, as Python's `round` on an
exact value. -/
def rne (x : ℚ) : ℤ :=
  if x - ⌊x⌋ = 1 / 2 then (if ⌊x⌋ % 2 = 0 then ⌊x⌋ else ⌊x⌋ + 1)
  else round x

/-- Python's `round(x, 4)`: round half to even at four decimal places. -/
def round4 (x : ℚ) : ℚ :=
  (rne (x * 10000) : ℚ) / 10000

/-- The manifest's `source_start_time` column: `round(current_pos, 4)` for
each emitted clip, in clip order. -/
def manifestOf (l : List ClipPlan) : List ℚ :=
  l.map fun c => round4 c.source_start

/-- A line of the silence detector's diagnostic stream that matches one of
the two patterns of `find_silences`: a `silence_start: t` or a
`silence_end: t` marker, in emission order. -/
inductive Marker where
  | sstart (t : ℚ)
  | send (t : ℚ)
  deriving DecidableEq, Repr

/-- `re.findall(r"silence_start: ...", output)`: the start markers of the
stream, in order. -/
def startTimes (out : List Marker) : List ℚ :=
  out.filterMap fun m =>
    match m with
    | Marker.sstart t => some t
    | Marker.send _ => none

/-- `re.findall(r"silence_end: ...", output)`: the end markers of the
stream, in order. -/
def endTimes (out : List Marker) : List ℚ :=
  out.filterMap fun m =>
    match m with
    | Marker.sstart _ => none
    | Marker.send t => some t

/-- `find_silences`: extract both marker lists; `sys.exit(1)` when either is
empty, else pair them positionally with `zip`. -/
def findSilences (out : List Marker) : Except ℕ (List (ℚ × ℚ)) :=
  let starts := startTimes out
  let ends := endTimes out
  if starts = [] ∨ ends = [] then Except.error 1
  else Except.ok (starts.zip ends)

/-- The pipeline after duration probing: detect silences, then plan and
write the manifest; `Except.error 1` models `sys.exit(1)`. -/
def pipeline (out : List Marker) (total target : ℚ) :
    Except ℕ (List ClipPlan × List ℚ) :=
  match findSilences out with
  | Except.error e => Except.error e
  | Except.ok silences =>
      Except.ok (plans total target silences, manifestOf (plans total target silences))

/-- The observable outcome of one external process invocation:
`returncode` and the diagnostic stream (`stderr`) as a character list. -/
structure CmdResult where
  returncode : ℤ
  stderr : List Char
  deriving DecidableEq, Repr

/-- Does `pat` occur at the head of `s`? -/
def leadMatch : List Char → List Char → Bool
  | [], _ => true
  | _ :: _, [] => false
  | p :: ps, c :: cs => p == c && leadMatch ps cs

/-- Python's `pat in s` substring test over character lists. -/
def occursIn (pat : List Char) : List Char → Bool
  | [] => leadMatch pat []
  | c :: cs => leadMatch pat (c :: cs) || occursIn pat cs

/-- The characters of the pattern `Error` checked by `run_command`. -/
def errorPat : List Char := ['E', 'r', 'r', 'o', 'r']

/-- The characters of the pattern `failed` checked by `run_command`. -/
def failedPat : List Char := ['f', 'a', 'i', 'l', 'e', 'd']

/-- `run_command`: on non-zero exit, abort (`sys.exit(1)`) exactly when the
diagnostic stream contains `Error` or `failed`; otherwise return the
stream. -/
def runCommand (r : CmdResult) : Except ℕ (List Char) :=
  if r.returncode ≠ 0 then
    if occursIn errorPat r.stderr || occursIn failedPat r.stderr then
      Except.error 1
    else Except.ok r.stderr
  else Except.ok r.stderr

/-- The stream-copy invocation in `split_audio`: `subprocess.run(command,
check=True, ...)` raises on any non-zero exit (uncaught, exit status 1),
with no inspection of the diagnostic stream. -/
def streamCopy (r : CmdResult) : Except ℕ Unit :=
  if r.returncode ≠ 0 then Except.error 1 else Except.ok ()

/-- The duration-probe invocation in `get_total_duration`:
`subprocess.run(command, capture_output=True, text=True, check=True)`
raises on any non-zero exit (uncaught, exit status 1), with no inspection
of the diagnostic stream. -/
def probeRun (r : CmdResult) : Except ℕ Unit :=
  if r.returncode ≠ 0 then Except.error 1 else Except.ok ()

/-- Distance of a silence's midpoint from the target split time. -/
def sDist (t : ℚ) (r : ℚ × ℚ) : ℚ := |silenceMidPoint r - t|

/-- The cursor position after the loop: `pos` when no clip was emitted,
otherwise the last emitted clip's `source_end`. -/
def finalPos (pos : ℚ) (l : List ClipPlan) : ℚ :=
  (l.getLast?).elim pos ClipPlan.source_end

lemma bestStep_elig_lt (pos t : ℚ) (q x : ℚ × ℚ) (hx : pos < x.1)
    (hd : sDist t x < sDist t q) :
    bestStep pos t (some (q, sDist t q)) x = some (x, sDist t x) := by
  unfold bestStep
  rw [if_pos hx]
  show (if |silenceMidPoint x - t| < sDist t q then _ else _) = _
  rw [if_pos (show |silenceMidPoint x - t| < sDist t q from hd)]
  exact rfl

lemma bestStep_elig_ge (pos t : ℚ) (q x : ℚ × ℚ) (hx : pos < x.1)
    (hd : ¬ sDist t x < sDist t q) :
    bestStep pos t (some (q, sDist t q)) x = some (q, sDist t q) := by
  unfold bestStep
  rw [if_pos hx]
  show (if |silenceMidPoint x - t| < sDist t q then _ else _) = _
  rw [if_neg (show ¬ |silenceMidPoint x - t| < sDist t q from hd)]

lemma bestStep_not_elig (pos t : ℚ) (acc : Option ((ℚ × ℚ) × ℚ)) (x : ℚ × ℚ)
    (hx : ¬ pos < x.1) : bestStep pos t acc x = acc := by
  unfold bestStep
  rw [if_neg hx]

lemma bestStep_none_elig (pos t : ℚ) (x : ℚ × ℚ) (hx : pos < x.1) :
    bestStep pos t none x = some (x, sDist t x) := by
  unfold bestStep
  rw [if_pos hx]
  exact rfl

lemma foldl_bestStep_some (pos t : ℚ) (l : List (ℚ × ℚ)) :
    ∀ q : ℚ × ℚ,
    ∃ p, l.foldl (bestStep pos t) (some (q, sDist t q)) = some (p, sDist t p) ∧
      (∀ r ∈ l, pos < r.1 → sDist t p ≤ sDist t r) ∧
      sDist t p ≤ sDist t q ∧
      (p = q ∨ (pos < p.1 ∧ sDist t p < sDist t q ∧
        ∃ l1 l2, l = l1 ++ p :: l2 ∧
          ∀ r ∈ l1, pos < r.1 → sDist t p < sDist t r)) := by
  induction l with
  | nil =>
      intro q
      exact ⟨q, rfl, by simp, le_refl _, Or.inl rfl⟩
  | cons x xs ih =>
      intro q
      by_cases hx : pos < x.1
      · by_cases hd : sDist t x < sDist t q
        · obtain ⟨p, hfold, hmin, hle, hcase⟩ := ih x
          refine ⟨p, ?_, ?_, hle.trans hd.le, ?_⟩
          · rw [List.foldl_cons, bestStep_elig_lt pos t q x hx hd]
            exact hfold
          · intro r hr hre
            rcases List.mem_cons.mp hr with h | h
            · exact h ▸ hle
            · exact hmin r h hre
          · right
            rcases hcase with h | ⟨he, hlt, l1, l2, hdec, hstr⟩
            · subst h
              exact ⟨hx, hd, [], xs, rfl, by simp⟩
            · refine ⟨he, hlt.trans hd, x :: l1, l2, by simp [hdec], ?_⟩
              intro r hr hre
              rcases List.mem_cons.mp hr with h | h
              · exact h ▸ hlt
              · exact hstr r h hre
        · obtain ⟨p, hfold, hmin, hle, hcase⟩ := ih q
          refine ⟨p, ?_, ?_, hle, ?_⟩
          · rw [List.foldl_cons, bestStep_elig_ge pos t q x hx hd]
            exact hfold
          · intro r hr hre
            rcases List.mem_cons.mp hr with h | h
            · exact h ▸ (hle.trans (not_lt.mp hd))
            · exact hmin r h hre
          · rcases hcase with h | ⟨he, hlt, l1, l2, hdec, hstr⟩
            · exact Or.inl h
            · refine Or.inr ⟨he, hlt, x :: l1, l2, by simp [hdec], ?_⟩
              intro r hr hre
              rcases List.mem_cons.mp hr with h | h
              · exact h ▸ (hlt.trans_le (not_lt.mp hd))
              · exact hstr r h hre
      · obtain ⟨p, hfold, hmin, hle, hcase⟩ := ih q
        refine ⟨p, ?_, ?_, hle, ?_⟩
        · rw [List.foldl_cons, bestStep_not_elig pos t _ x hx]
          exact hfold
        · intro r hr hre
          rcases List.mem_cons.mp hr with h | h
          · exact absurd (h ▸ hre) hx
          · exact hmin r h hre
        · rcases hcase with h | ⟨he, hlt, l1, l2, hdec, hstr⟩
          · exact Or.inl h
          · refine Or.inr ⟨he, hlt, x :: l1, l2, by simp [hdec], ?_⟩
            intro r hr hre
            rcases List.mem_cons.mp hr with h | h
            · exact absurd (h ▸ hre) hx
            · exact hstr r h hre

lemma bestSilence_cons_elig (xs : List (ℚ × ℚ)) (x : ℚ × ℚ) (pos t : ℚ)
    (hx : pos < x.1) :
    ∃ p, bestSilence (x :: xs) pos t = some p ∧
      (∀ r ∈ xs, pos < r.1 → sDist t p ≤ sDist t r) ∧
      sDist t p ≤ sDist t x ∧
      (p = x ∨ (pos < p.1 ∧ sDist t p < sDist t x ∧
        ∃ l1 l2, xs = l1 ++ p :: l2 ∧
          ∀ r ∈ l1, pos < r.1 → sDist t p < sDist t r)) := by
  obtain ⟨p, hfold, hmin, hle, hcase⟩ := foldl_bestStep_some pos t xs x
  refine ⟨p, ?_, hmin, hle, hcase⟩
  unfold bestSilence
  rw [List.foldl_cons, bestStep_none_elig pos t x hx, hfold]
  rfl

lemma bestSilence_cons_not_elig (xs : List (ℚ × ℚ)) (x : ℚ × ℚ) (pos t : ℚ)
    (hx : ¬ pos < x.1) :
    bestSilence (x :: xs) pos t = bestSilence xs pos t := by
  unfold bestSilence
  rw [List.foldl_cons, bestStep_not_elig pos t _ x hx]

lemma bestSilence_none_iff (l : List (ℚ × ℚ)) (pos t : ℚ) :
    bestSilence l pos t = none ↔ ∀ r ∈ l, ¬ pos < r.1 := by
  induction l with
  | nil => simp [bestSilence]
  | cons x xs ih =>
      by_cases hx : pos < x.1
      · obtain ⟨p, hbs, -⟩ := bestSilence_cons_elig xs x pos t hx
        constructor
        · intro h
          rw [hbs] at h
          exact absurd h (by simp)
        · intro h
          exact absurd hx (h x (by simp))
      · rw [bestSilence_cons_not_elig xs x pos t hx]
        constructor
        · intro h r hr
          rcases List.mem_cons.mp hr with he | he
          · exact he ▸ hx
          · exact (ih.mp h) r he
        · intro h
          exact ih.mpr fun r hr => h r (List.mem_cons_of_mem x hr)

lemma bestSilence_some_spec (l : List (ℚ × ℚ)) (pos t : ℚ) (p : ℚ × ℚ)
    (h : bestSilence l pos t = some p) :
    pos < p.1 ∧ (∀ r ∈ l, pos < r.1 → sDist t p ≤ sDist t r) ∧
    ∃ l1 l2, l = l1 ++ p :: l2 ∧
      ∀ r ∈ l1, pos < r.1 → sDist t p < sDist t r := by
  induction l with
  | nil => simp [bestSilence] at h
  | cons x xs ih =>
      by_cases hx : pos < x.1
      · obtain ⟨p', hbs, hmin, hle, hcase⟩ := bestSilence_cons_elig xs x pos t hx
        have hp : p' = p := Option.some.inj (hbs.symm.trans h)
        subst hp
        rcases hcase with he | ⟨helig, hlt, l1, l2, hdec, hstr⟩
        · subst he
          refine ⟨hx, ?_, [], xs, rfl, by simp⟩
          intro r hr hre
          rcases List.mem_cons.mp hr with h' | h'
          · exact h' ▸ le_refl _
          · exact hmin r h' hre
        · refine ⟨helig, ?_, x :: l1, l2, by simp [hdec], ?_⟩
          · intro r hr hre
            rcases List.mem_cons.mp hr with h' | h'
            · exact h' ▸ hle
            · exact hmin r h' hre
          · intro r hr hre
            rcases List.mem_cons.mp hr with h' | h'
            · exact h' ▸ hlt
            · exact hstr r h' hre
      · rw [bestSilence_cons_not_elig xs x pos t hx] at h
        obtain ⟨helig, hmin, l1, l2, hdec, hstr⟩ := ih h
        refine ⟨helig, ?_, x :: l1, l2, by simp [hdec], ?_⟩
        · intro r hr hre
          rcases List.mem_cons.mp hr with h'' | h''
          · exact absurd (h'' ▸ hre) hx
          · exact hmin r h'' hre
        · intro r hr hre
          rcases List.mem_cons.mp hr with h'' | h''
          · exact absurd (h'' ▸ hre) hx
          · exact hstr r h'' hre

lemma splitLoop_not_lt (total target : ℚ) (silences : List (ℚ × ℚ))
    (fuel n : ℕ) (pos : ℚ) (h : ¬ pos < total) :
    splitLoop total target silences (fuel + 1) pos n = some [] := by
  unfold splitLoop
  rw [if_neg h]

lemma splitLoop_break (total target : ℚ) (silences : List (ℚ × ℚ))
    (fuel n : ℕ) (pos : ℚ) (h : pos < total)
    (hsp : splitPoint total target silences pos - pos < 1) :
    splitLoop total target silences (fuel + 1) pos n = some [] := by
  unfold splitLoop
  rw [if_pos h]
  show (if splitPoint total target silences pos - pos < 1 then _ else _) = _
  rw [if_pos hsp]

lemma splitLoop_step (total target : ℚ) (silences : List (ℚ × ℚ))
    (fuel n : ℕ) (pos : ℚ) (h : pos < total)
    (hsp : ¬ splitPoint total target silences pos - pos < 1) :
    splitLoop total target silences (fuel + 1) pos n =
      match splitLoop total target silences fuel
          (splitPoint total target silences pos) (n + 1) with
      | none => none
      | some rest =>
          some (⟨n, pos, splitPoint total target silences pos⟩ :: rest) := by
  conv_lhs => rw [splitLoop]
  rw [if_pos h]
  show (if splitPoint total target silences pos - pos < 1 then _ else _) = _
  rw [if_neg hsp]

lemma splitLoop_head (total target : ℚ) (silences : List (ℚ × ℚ)) :
    ∀ fuel (pos : ℚ) (n : ℕ) (l : List ClipPlan),
      splitLoop total target silences fuel pos n = some l →
      ∀ hne : l ≠ [], (l.head hne).source_start = pos := by
  intro fuel pos n l h hne
  cases fuel with
  | zero => exact absurd h (by simp [splitLoop])
  | succ fuel =>
      by_cases hlt : pos < total
      · by_cases hsp : splitPoint total target silences pos - pos < 1
        · rw [splitLoop_break total target silences fuel n pos hlt hsp] at h
          exact absurd (Option.some.inj h).symm hne
        · rw [splitLoop_step total target silences fuel n pos hlt hsp] at h
          cases hrec : splitLoop total target silences fuel
              (splitPoint total target silences pos) (n + 1) with
          | none => rw [hrec] at h; exact absurd h (by simp)
          | some rest =>
              rw [hrec] at h
              have hl := (Option.some.inj h).symm
              subst hl
              rfl
      · rw [splitLoop_not_lt total target silences fuel n pos hlt] at h
        exact absurd (Option.some.inj h).symm hne

lemma splitLoop_chain (total target : ℚ) (silences : List (ℚ × ℚ)) :
    ∀ fuel (pos : ℚ) (n : ℕ) (l : List ClipPlan),
      splitLoop total target silences fuel pos n = some l →
      List.Chain' (fun a b => a.source_end = b.source_start) l := by
  intro fuel
  induction fuel with
  | zero => intro pos n l h; exact absurd h (by simp [splitLoop])
  | succ fuel ih =>
      intro pos n l h
      by_cases hlt : pos < total
      · by_cases hsp : splitPoint total target silences pos - pos < 1
        · rw [splitLoop_break total target silences fuel n pos hlt hsp] at h
          rw [← Option.some.inj h]
          exact List.chain'_nil
        · rw [splitLoop_step total target silences fuel n pos hlt hsp] at h
          cases hrec : splitLoop total target silences fuel
              (splitPoint total target silences pos) (n + 1) with
          | none => rw [hrec] at h; exact absurd h (by simp)
          | some rest =>
              rw [hrec] at h
              rw [← Option.some.inj h]
              refine List.chain'_cons'.mpr ⟨?_, ih _ _ _ hrec⟩
              intro b hb
              cases rest with
              | nil => simp at hb
              | cons r rs =>
                  have hbr : b = r := by simpa using hb.symm
                  subst hbr
                  exact (splitLoop_head total target silences fuel _ _ _ hrec
                    (by simp)).symm
      · rw [splitLoop_not_lt total target silences fuel n pos hlt] at h
        rw [← Option.some.inj h]
        exact List.chain'_nil

lemma splitLoop_clips (total target : ℚ) (silences : List (ℚ × ℚ)) :
    ∀ fuel (pos : ℚ) (n : ℕ) (l : List ClipPlan),
      splitLoop total target silences fuel pos n = some l →
      ∀ c ∈ l, 1 ≤ c.source_end - c.source_start ∧
        c.source_end = splitPoint total target silences c.source_start := by
  intro fuel
  induction fuel with
  | zero => intro pos n l h; exact absurd h (by simp [splitLoop])
  | succ fuel ih =>
      intro pos n l h
      by_cases hlt : pos < total
      · by_cases hsp : splitPoint total target silences pos - pos < 1
        · rw [splitLoop_break total target silences fuel n pos hlt hsp] at h
          rw [← Option.some.inj h]
          simp
        · rw [splitLoop_step total target silences fuel n pos hlt hsp] at h
          cases hrec : splitLoop total target silences fuel
              (splitPoint total target silences pos) (n + 1) with
          | none => rw [hrec] at h; exact absurd h (by simp)
          | some rest =>
              rw [hrec] at h
              rw [← Option.some.inj h]
              intro c hc
              rcases List.mem_cons.mp hc with hce | hce
              · subst hce
                exact ⟨by linarith [not_lt.mp hsp], rfl⟩
              · exact ih _ _ _ hrec c hce
      · rw [splitLoop_not_lt total target silences fuel n pos hlt] at h
        rw [← Option.some.inj h]
        simp

lemma splitLoop_final (total target : ℚ) (silences : List (ℚ × ℚ)) :
    ∀ fuel (pos : ℚ) (n : ℕ) (l : List ClipPlan),
      splitLoop total target silences fuel pos n = some l →
      ¬ finalPos pos l < total ∨
        splitPoint total target silences (finalPos pos l) - finalPos pos l < 1 := by
  intro fuel
  induction fuel with
  | zero => intro pos n l h; exact absurd h (by simp [splitLoop])
  | succ fuel ih =>
      intro pos n l h
      by_cases hlt : pos < total
      · by_cases hsp : splitPoint total target silences pos - pos < 1
        · rw [splitLoop_break total target silences fuel n pos hlt hsp] at h
          rw [← Option.some.inj h]
          exact Or.inr hsp
        · rw [splitLoop_step total target silences fuel n pos hlt hsp] at h
          cases hrec : splitLoop total target silences fuel
              (splitPoint total target silences pos) (n + 1) with
          | none => rw [hrec] at h; exact absurd h (by simp)
          | some rest =>
              rw [hrec] at h
              rw [← Option.some.inj h]
              have heq : finalPos pos
                  (⟨n, pos, splitPoint total target silences pos⟩ :: rest) =
                  finalPos (splitPoint total target silences pos) rest := by
                cases rest with
                | nil => rfl
                | cons r rs =>
                    unfold finalPos
                    rw [List.getLast?_cons_cons,
                      List.getLast?_eq_getLast_of_ne_nil (l := r :: rs) (by simp)]
                    rfl
              rw [heq]
              exact ih _ _ _ hrec
      · rw [splitLoop_not_lt total target silences fuel n pos hlt] at h
        rw [← Option.some.inj h]
        exact Or.inl hlt

lemma splitLoop_seq (total target : ℚ) (silences : List (ℚ × ℚ)) :
    ∀ fuel (pos : ℚ) (n : ℕ) (l : List ClipPlan),
      splitLoop total target silences fuel pos n = some l →
      ∀ i c, l.get? i = some c → c.seq = n + i := by
  intro fuel
  induction fuel with
  | zero => intro pos n l h; exact absurd h (by simp [splitLoop])
  | succ fuel ih =>
      intro pos n l h
      by_cases hlt : pos < total
      · by_cases hsp : splitPoint total target silences pos - pos < 1
        · rw [splitLoop_break total target silences fuel n pos hlt hsp] at h
          rw [← Option.some.inj h]
          intro i c hc
          simp at hc
        · rw [splitLoop_step total target silences fuel n pos hlt hsp] at h
          cases hrec : splitLoop total target silences fuel
              (splitPoint total target silences pos) (n + 1) with
          | none => rw [hrec] at h; exact absurd h (by simp)
          | some rest =>
              rw [hrec] at h
              rw [← Option.some.inj h]
              intro i c hc
              cases i with
              | zero =>
                  have hc0 : (⟨n, pos, splitPoint total target silences pos⟩ :
                      ClipPlan) = c := by simpa using hc
                  rw [← hc0]
                  rfl
              | succ i =>
                  have hrest : rest.get? i = some c := by simpa using hc
                  have := ih _ _ _ hrec i c hrest
                  omega
      · rw [splitLoop_not_lt total target silences fuel n pos hlt] at h
        rw [← Option.some.inj h]
        intro i c hc
        simp at hc

lemma splitLoop_isSome (total target : ℚ) (silences : List (ℚ × ℚ)) :
    ∀ fuel (pos : ℚ) (n : ℕ), (⌈total - pos⌉).toNat < fuel →
      (splitLoop total target silences fuel pos n).isSome := by
  intro fuel
  induction fuel with
  | zero => intro pos n h; omega
  | succ fuel ih =>
      intro pos n h
      by_cases hlt : pos < total
      · by_cases hsp : splitPoint total target silences pos - pos < 1
        · rw [splitLoop_break total target silences fuel n pos hlt hsp]
          rfl
        · rw [splitLoop_step total target silences fuel n pos hlt hsp]
          have hadv : pos + 1 ≤ splitPoint total target silences pos := by
            linarith [not_lt.mp hsp]
          have hceil1 : 1 ≤ ⌈total - pos⌉ := by
            rw [Int.le_ceil_iff]
            push_cast
            linarith
          have hle : ⌈total - splitPoint total target silences pos⌉ ≤
              ⌈total - pos⌉ - 1 := by
            have : total - splitPoint total target silences pos ≤
                total - pos - 1 := by linarith
            calc ⌈total - splitPoint total target silences pos⌉
                ≤ ⌈total - pos - 1⌉ := Int.ceil_le_ceil this
              _ = ⌈total - pos⌉ - 1 := by
                  rw [show (1 : ℚ) = ((1 : ℤ) : ℚ) by norm_num,
                    Int.ceil_sub_int]
          have hfuel : (⌈total - splitPoint total target silences pos⌉).toNat <
              fuel := by omega
          have := ih (splitPoint total target silences pos) (n + 1) hfuel
          cases hrec : splitLoop total target silences fuel
              (splitPoint total target silences pos) (n + 1) with
          | none => rw [hrec] at this; exact absurd this (by simp)
          | some rest => rfl
      · rw [splitLoop_not_lt total target silences fuel n pos hlt]
        rfl

lemma planFuel_enough (total : ℚ) : (⌈total - 0⌉).toNat < planFuel total := by
  rw [sub_zero]
  unfold planFuel
  rcases le_or_lt total 0 with h | h
  · have : ⌈total⌉ ≤ 0 := by
      rw [Int.ceil_le]
      exact_mod_cast h
    omega
  · have hnum : 0 < total.num := Rat.num_pos.mpr h
    have hle : ⌈total⌉ ≤ total.num := by
      rw [Int.ceil_le]
      rw [show ((total.num : ℚ) : ℚ) = (total.num : ℚ) from rfl]
      calc total = (total.num : ℚ) / (total.den : ℚ) := (Rat.num_div_den total).symm
        _ ≤ (total.num : ℚ) := by
            apply div_le_self
            · exact_mod_cast hnum.le
            · exact_mod_cast total.den_pos
    omega

lemma splitAudioOpt_eq (total target : ℚ) (silences : List (ℚ × ℚ)) :
    splitAudioOpt total target silences = some (plans total target silences) := by
  have h := splitLoop_isSome total target silences (planFuel total) 0 1
    (planFuel_enough total)
  obtain ⟨l, hl⟩ := Option.isSome_iff_exists.mp h
  have hl' : splitAudioOpt total target silences = some l := hl
  rw [hl']
  unfold plans
  rw [hl']
  rfl

lemma plans_eq_splitLoop (total target : ℚ) (silences : List (ℚ × ℚ)) :
    splitLoop total target silences (planFuel total) 0 1 =
      some (plans total target silences) :=
  splitAudioOpt_eq total target silences

lemma mem_of_bestSilence (l : List (ℚ × ℚ)) (pos t : ℚ) (p : ℚ × ℚ)
    (h : bestSilence l pos t = some p) : p ∈ l := by
  obtain ⟨-, -, l1, l2, hdec, -⟩ := bestSilence_some_spec l pos t p h
  rw [hdec]
  simp

lemma splitPoint_le_total (total target : ℚ) (silences : List (ℚ × ℚ))
    (hs : ∀ p ∈ silences, p.1 ≤ total ∧ p.2 ≤ total) (pos : ℚ) :
    splitPoint total target silences pos ≤ total := by
  unfold splitPoint
  split
  · exact le_refl total
  · cases hb : bestSilence silences pos (pos + target) with
    | none => exact le_refl total
    | some p =>
        have hp := hs p (mem_of_bestSilence silences pos (pos + target) p hb)
        unfold silenceMidPoint
        linarith [hp.1, hp.2]

/-- C1: for `total_duration > 0` and a non-empty list of silence intervals
of the audio (each within `[0, total]` with `start < end`), the emitted
`ClipPlan` sequence starts at 0, is contiguous (`source_end i =
source_start (i+1)`), has strictly increasing `source_start`, and its final
`source_end` is `total` unless the next computed segment was shorter than
the 1.0-second minimum, in which case the prior clip's `source_end` is the
end of the planned output. -/
theorem claim1_plan_shape (total target : ℚ) (silences : List (ℚ × ℚ))
    (htot : 0 < total) (hne : silences ≠ [])
    (hs : ∀ p ∈ silences, 0 ≤ p.1 ∧ p.1 < p.2 ∧ p.2 ≤ total) :
    (∀ h : plans total target silences ≠ [],
      ((plans total target silences).head h).source_start = 0)
    ∧ (∀ (i : ℕ) (h : i < (plans total target silences).length - 1),
        ((plans total target silences).get ⟨i, by omega⟩).source_end =
        ((plans total target silences).get ⟨i + 1, by omega⟩).source_start)
    ∧ List.Pairwise (fun a b => a.source_start < b.source_start)
        (plans total target silences)
    ∧ (∀ h : plans total target silences ≠ [],
        ((plans total target silences).getLast h).source_end = total ∨
        splitPoint total target silences
            (((plans total target silences).getLast h).source_end) -
          ((plans total target silences).getLast h).source_end < 1) := by
  have hrun := plans_eq_splitLoop total target silences
  have hchain := splitLoop_chain total target silences _ _ _ _ hrun
  have hclips := splitLoop_clips total target silences _ _ _ _ hrun
  have hcontig := List.chain'_iff_get.mp hchain
  refine ⟨?_, hcontig, ?_, ?_⟩
  · intro h
    exact splitLoop_head total target silences _ _ _ _ hrun h
  · haveI : IsTrans ClipPlan (fun a b => a.source_start < b.source_start) :=
      ⟨fun a b c h1 h2 => h1.trans h2⟩
    rw [← List.chain'_iff_pairwise]
    refine List.chain'_iff_get.mpr ?_
    intro i h
    have hmem := List.get_mem (plans total target silences) _
      (show i < (plans total target silences).length by omega)
    have hlen := (hclips _ hmem).1
    have := hcontig i h
    dsimp only at this ⊢
    rw [← this]
    linarith
  · intro h
    have hfin := splitLoop_final total target silences _ _ _ _ hrun
    have hfp : finalPos 0 (plans total target silences) =
        ((plans total target silences).getLast h).source_end := by
      unfold finalPos
      rw [List.getLast?_eq_getLast_of_ne_nil h]
      rfl
    rw [hfp] at hfin
    rcases hfin with hge | hlt
    · left
      have hmem := List.getLast_mem h
      have hend := (hclips _ hmem).2
      have hle : ((plans total target silences).getLast h).source_end ≤ total := by
        rw [hend]
        exact splitPoint_le_total total target silences
          (fun p hp => ⟨((hs p hp).2.1.le).trans (hs p hp).2.2, (hs p hp).2.2⟩) _
      linarith [not_lt.mp hge]
    · exact Or.inr hlt

/-- Witness for C1 at `total = 10`, `target = 3`,
`silences = [(2.8, 3.2)]`. -/
theorem claim1_witness :
    ((0 : ℚ) < 10) ∧ ([((2.8 : ℚ), (3.2 : ℚ))] ≠ []) ∧
    (∀ p ∈ [((2.8 : ℚ), (3.2 : ℚ))], 0 ≤ p.1 ∧ p.1 < p.2 ∧ p.2 ≤ 10) ∧
    ((∀ h : plans 10 3 [(2.8, 3.2)] ≠ [],
      ((plans 10 3 [(2.8, 3.2)]).head h).source_start = 0)
    ∧ (∀ (i : ℕ) (h : i < (plans 10 3 [(2.8, 3.2)]).length - 1),
        ((plans 10 3 [(2.8, 3.2)]).get ⟨i, by omega⟩).source_end =
        ((plans 10 3 [(2.8, 3.2)]).get ⟨i + 1, by omega⟩).source_start)
    ∧ List.Pairwise (fun a b => a.source_start < b.source_start)
        (plans 10 3 [(2.8, 3.2)])
    ∧ (∀ h : plans 10 3 [(2.8, 3.2)] ≠ [],
        ((plans 10 3 [(2.8, 3.2)]).getLast h).source_end = 10 ∨
        splitPoint 10 3 [(2.8, 3.2)]
            (((plans 10 3 [(2.8, 3.2)]).getLast h).source_end) -
          ((plans 10 3 [(2.8, 3.2)]).getLast h).source_end < 1)) :=
  ⟨by norm_num, by simp, by norm_num,
    claim1_plan_shape 10 3 [(2.8, 3.2)] (by norm_num) (by simp) (by norm_num)⟩

/-- C2: in a non-final step (`pos + target < total`) the chosen silence is
eligible (`start > pos`), its midpoint distance to the target time is
minimal among eligible intervals, ties go to the first interval in
detection order (strict less-than update), the split point is that
interval's midpoint, and with no eligible interval the split point falls
back to `total`. -/
theorem claim2_split_selection (total target pos : ℚ)
    (silences : List (ℚ × ℚ)) (h : pos + target < total) :
    (∀ p, bestSilence silences pos (pos + target) = some p →
      splitPoint total target silences pos = silenceMidPoint p
      ∧ pos < p.1
      ∧ (∀ q ∈ silences, pos < q.1 →
          |silenceMidPoint p - (pos + target)| ≤
            |silenceMidPoint q - (pos + target)|)
      ∧ ∃ l1 l2, silences = l1 ++ p :: l2
          ∧ ∀ q ∈ l1, pos < q.1 →
              |silenceMidPoint p - (pos + target)| <
                |silenceMidPoint q - (pos + target)|)
    ∧ (bestSilence silences pos (pos + target) = none ↔
        ∀ q ∈ silences, ¬ pos < q.1)
    ∧ (bestSilence silences pos (pos + target) = none →
        splitPoint total target silences pos = total) := by
  refine ⟨?_, bestSilence_none_iff silences pos (pos + target), ?_⟩
  · intro p hp
    obtain ⟨helig, hmin, hdec⟩ :=
      bestSilence_some_spec silences pos (pos + target) p hp
    refine ⟨?_, helig, fun q hq hqe => hmin q hq hqe, hdec⟩
    unfold splitPoint
    rw [if_neg (not_le.mpr h), hp]
  · intro hn
    unfold splitPoint
    rw [if_neg (not_le.mpr h), hn]

/-- Witness for C2 at `total = 10`, `target = 3`, `pos = 0`,
`silences = [(2.8, 3.0), (3.0, 3.2)]` (midpoints 2.9 and 3.1, both at
distance 0.1 from the target 3 — a tie). -/
theorem claim2_witness :
    ((0 : ℚ) + 3 < 10) ∧
    ((∀ p, bestSilence [(2.8, 3.0), (3.0, 3.2)] 0 ((0 : ℚ) + 3) = some p →
      splitPoint 10 3 [(2.8, 3.0), (3.0, 3.2)] 0 = silenceMidPoint p
      ∧ (0 : ℚ) < p.1
      ∧ (∀ q ∈ [((2.8 : ℚ), (3.0 : ℚ)), (3.0, 3.2)], (0 : ℚ) < q.1 →
          |silenceMidPoint p - ((0 : ℚ) + 3)| ≤
            |silenceMidPoint q - ((0 : ℚ) + 3)|)
      ∧ ∃ l1 l2, [((2.8 : ℚ), (3.0 : ℚ)), (3.0, 3.2)] = l1 ++ p :: l2
          ∧ ∀ q ∈ l1, (0 : ℚ) < q.1 →
              |silenceMidPoint p - ((0 : ℚ) + 3)| <
                |silenceMidPoint q - ((0 : ℚ) + 3)|)
    ∧ (bestSilence [(2.8, 3.0), (3.0, 3.2)] 0 ((0 : ℚ) + 3) = none ↔
        ∀ q ∈ [((2.8 : ℚ), (3.0 : ℚ)), (3.0, 3.2)], ¬ (0 : ℚ) < q.1)
    ∧ (bestSilence [(2.8, 3.0), (3.0, 3.2)] 0 ((0 : ℚ) + 3) = none →
        splitPoint 10 3 [(2.8, 3.0), (3.0, 3.2)] 0 = 10)) :=
  ⟨by norm_num,
    claim2_split_selection 10 3 0 [(2.8, 3.0), (3.0, 3.2)] (by norm_num)⟩

/-- C3: whenever the computed split point is less than 1.0 second past the
cursor, the loop stops at once and emits nothing further (the tail is
dropped), and consequently every emitted clip is at least 1.0 second
long. -/
theorem claim3_min_segment (total target : ℚ) (silences : List (ℚ × ℚ)) :
    (∀ (fuel n : ℕ) (pos : ℚ),
        splitPoint total target silences pos - pos < 1 →
        splitLoop total target silences (fuel + 1) pos n = some [])
    ∧ ∀ c ∈ plans total target silences,
        1 ≤ c.source_end - c.source_start := by
  constructor
  · intro fuel n pos hsp
    by_cases hlt : pos < total
    · exact splitLoop_break total target silences fuel n pos hlt hsp
    · exact splitLoop_not_lt total target silences fuel n pos hlt
  · intro c hc
    exact (splitLoop_clips total target silences _ _ _ _
      (plans_eq_splitLoop total target silences) c hc).1

/-- Witness for C3: with `total = 0.5` the very first split point is `0.5`,
less than 1 second from the cursor, and the loop emits nothing. -/
theorem claim3_witness :
    (splitPoint 0.5 300 [(0.1, 0.2)] 0 - 0 < 1) ∧
    splitLoop 0.5 300 [(0.1, 0.2)] 6 0 1 = some [] ∧
    (∀ c ∈ plans 10 3 [(2.8, 3.2)], 1 ≤ c.source_end - c.source_start) :=
  ⟨by norm_num [splitPoint],
    (claim3_min_segment 0.5 300 [(0.1, 0.2)]).1 5 1 0
      (by norm_num [splitPoint]),
    (claim3_min_segment 10 3 [(2.8, 3.2)]).2⟩

/-- C8: the planner is deterministic — identical inputs give identical
`ClipPlan` sequences. -/
theorem claim8_deterministic (total₁ total₂ target₁ target₂ : ℚ)
    (s₁ s₂ : List (ℚ × ℚ)) (h1 : total₁ = total₂) (h2 : target₁ = target₂)
    (h3 : s₁ = s₂) :
    plans total₁ target₁ s₁ = plans total₂ target₂ s₂ := by
  subst h1
  subst h2
  subst h3
  rfl

/-- Witness for C8 at `total = 10`, `target = 3`,
`silences = [(2.8, 3.2)]`. -/
theorem claim8_witness :
    ((10 : ℚ) = 10) ∧ ((3 : ℚ) = 3) ∧
    ([((2.8 : ℚ), (3.2 : ℚ))] = [((2.8 : ℚ), (3.2 : ℚ))]) ∧
    plans 10 3 [(2.8, 3.2)] = plans 10 3 [(2.8, 3.2)] :=
  ⟨rfl, rfl, rfl,
    claim8_deterministic 10 10 3 3 [(2.8, 3.2)] [(2.8, 3.2)] rfl rfl rfl⟩

/-- C9: the planning loop terminates for every finite duration and silence
list — with fuel `planFuel total` (one unit per emitted clip plus one, each
clip advancing the cursor by at least one second) the loop always
completes rather than running out of fuel. -/
theorem claim9_terminates (total target : ℚ) (silences : List (ℚ × ℚ)) :
    (splitAudioOpt total target silences).isSome = true := by
  rw [splitAudioOpt_eq total target silences]
  rfl

lemma round4_three_point_ooool : round4 (3.00001 : ℚ) = 3 := by
  have hy : (3.00001 : ℚ) * 10000 = 30000.1 := by norm_num
  have hfl : ⌊(30000.1 : ℚ)⌋ = 30000 := by
    rw [Int.floor_eq_iff]
    constructor <;> push_cast <;> norm_num
  have hrnd : round ((30000.1 : ℚ)) = 30000 := by
    rw [round_eq]
    have h6 : (30000.1 : ℚ) + 1 / 2 = 30000.6 := by norm_num
    rw [h6, Int.floor_eq_iff]
    constructor <;> push_cast <;> norm_num
  unfold round4 rne
  rw [hy, hfl, hrnd]
  norm_num

lemma round4_zero : round4 (0 : ℚ) = 0 := by
  have hy : (0 : ℚ) * 10000 = 0 := by norm_num
  unfold round4 rne
  rw [hy]
  norm_num

/-- C4 counterexample: with silences `[(3, 3.00002)]` the second clip is
cut at `current_pos = 3.00001`, but its manifest `source_start_time` is
`round(3.00001, 4) = 3.0` — the rounded manifest value differs from the
exact cut point passed to extraction, so rounding at manifest-write time
does introduce a difference. -/
theorem claim4_counterexample :
    (plans 10 3 [(3, 3.00002)]).map ClipPlan.source_start = [0, 3.00001]
    ∧ manifestOf (plans 10 3 [(3, 3.00002)]) = [0, 3]
    ∧ (3 : ℚ) ≠ 3.00001 := by
  have hp : plans 10 3 [(3, 3.00002)] =
      [⟨1, 0, 3.00001⟩, ⟨2, 3.00001, 10⟩] := by
    norm_num [plans, splitAudioOpt, planFuel, splitLoop, splitPoint,
      bestSilence, bestStep, silenceMidPoint]
  refine ⟨by rw [hp]; norm_num, ?_, by norm_num⟩
  rw [hp]
  unfold manifestOf
  simp only [List.map_cons, List.map_nil]
  rw [round4_zero, round4_three_point_ooool]

/-- C4 (amended): each manifest entry equals `round4` of the exact cut
point used for extraction — the manifest stores the rounded value, not the
cut point itself — and the two coincide exactly when the cut point has at
most four decimal places (`(pos * 10000).den = 1`). -/
theorem claim4_manifest_round (total target : ℚ) (silences : List (ℚ × ℚ))
    (i : ℕ) (c : ClipPlan)
    (h : (plans total target silences).get? i = some c) :
    (manifestOf (plans total target silences)).get? i =
      some (round4 c.source_start)
    ∧ ((c.source_start * 10000).den = 1 →
        round4 c.source_start = c.source_start) := by
  constructor
  · unfold manifestOf
    rw [List.get?_map, h]
    rfl
  · intro hden
    have hnum : ((c.source_start * 10000).num : ℚ) = c.source_start * 10000 :=
      (Rat.den_eq_one_iff _).mp hden
    have hfl : ⌊c.source_start * 10000⌋ = (c.source_start * 10000).num := by
      rw [← hnum]
      exact Int.floor_intCast _
    have hcond : ¬ (c.source_start * 10000 -
        (⌊c.source_start * 10000⌋ : ℚ) = 1 / 2) := by
      rw [hfl, hnum]
      simp
    unfold round4 rne
    rw [if_neg hcond, ← hnum, round_intCast, hnum]
    field_simp

/-- Witness for C4 (amended) at `total = 10`, `target = 3`,
`silences = [(2.8, 3.2)]`, first clip. -/
theorem claim4_witness :
    (plans 10 3 [(2.8, 3.2)]).get? 0 =
      some (⟨1, 0, 3⟩ : ClipPlan) ∧
    ((manifestOf (plans 10 3 [(2.8, 3.2)])).get? 0 =
      some (round4 (⟨1, 0, 3⟩ : ClipPlan).source_start)
    ∧ (((⟨1, 0, 3⟩ : ClipPlan).source_start * 10000).den = 1 →
        round4 (⟨1, 0, 3⟩ : ClipPlan).source_start =
          (⟨1, 0, 3⟩ : ClipPlan).source_start)) :=
  ⟨by norm_num [plans, splitAudioOpt, planFuel, splitLoop, splitPoint,
      bestSilence, bestStep, silenceMidPoint],
    claim4_manifest_round 10 3 [(2.8, 3.2)] 0 ⟨1, 0, 3⟩
      (by norm_num [plans, splitAudioOpt, planFuel, splitLoop, splitPoint,
        bestSilence, bestStep, silenceMidPoint])⟩

lemma findSilences_ok (out : List Marker) (l : List (ℚ × ℚ))
    (h : findSilences out = Except.ok l) :
    l = (startTimes out).zip (endTimes out) := by
  unfold findSilences at h
  by_cases hc : startTimes out = [] ∨ endTimes out = []
  · rw [if_pos hc] at h
    exact absurd h (by simp)
  · rw [if_neg hc] at h
    exact (Except.ok.inj h).symm

lemma zip_nil_cases {α β : Type} (l1 : List α) (l2 : List β)
    (h : l1.zip l2 = []) : l1 = [] ∨ l2 = [] := by
  cases l1 with
  | nil => exact Or.inl rfl
  | cons a as =>
      cases l2 with
      | nil => exact Or.inr rfl
      | cons b bs => simp [List.zip_cons_cons] at h

/-- C5: the i-th start marker is paired with the i-th end marker in
emission order; when the counts differ, start markers beyond the last end
marker are dropped (`zip` truncates to the shorter list); in particular a
stream with 3 start markers and 2 end markers yields exactly the 2 paired
intervals. -/
theorem claim5_pairing :
    (∀ (out : List Marker) (l : List (ℚ × ℚ)),
      findSilences out = Except.ok l →
      l.length = min (startTimes out).length (endTimes out).length
      ∧ ∀ (i : ℕ) (hi : i < (startTimes out).length)
          (he : i < (endTimes out).length),
          l.get? i = some ((startTimes out).get ⟨i, hi⟩,
            (endTimes out).get ⟨i, he⟩))
    ∧ findSilences [Marker.sstart 1, Marker.send 2, Marker.sstart 3,
        Marker.send 4, Marker.sstart 5] = Except.ok [(1, 2), (3, 4)] := by
  constructor
  · intro out l h
    have hl := findSilences_ok out l h
    subst hl
    refine ⟨List.length_zip _ _, ?_⟩
    intro i hi he
    exact (List.get?_zip_eq_some _ _ _ _).mpr
      ⟨List.get?_eq_get hi, List.get?_eq_get he⟩
  · rfl

/-- Witness for C5 on the 3-starts/2-ends stream. -/
theorem claim5_witness :
    findSilences [Marker.sstart 1, Marker.send 2, Marker.sstart 3,
        Marker.send 4, Marker.sstart 5] = Except.ok [(1, 2), (3, 4)]
    ∧ ([((1 : ℚ), (2 : ℚ)), (3, 4)].length =
        min (startTimes [Marker.sstart 1, Marker.send 2, Marker.sstart 3,
          Marker.send 4, Marker.sstart 5]).length
          (endTimes [Marker.sstart 1, Marker.send 2, Marker.sstart 3,
            Marker.send 4, Marker.sstart 5]).length) :=
  ⟨claim5_pairing.2,
    ((claim5_pairing.1 _ [(1, 2), (3, 4)] claim5_pairing.2).1)⟩

/-- C6: when the detector finds zero silence intervals the run aborts with
exit status 1 before any planning or extraction — the pipeline result is
`error 1`, carrying no clips, with no fixed-interval fallback. -/
theorem claim6_zero_silences_fatal (out : List Marker) (total target : ℚ)
    (h : (startTimes out).zip (endTimes out) = []) :
    findSilences out = Except.error 1
    ∧ pipeline out total target = Except.error 1 := by
  have hc : startTimes out = [] ∨ endTimes out = [] :=
    zip_nil_cases _ _ h
  have hfs : findSilences out = Except.error 1 := by
    unfold findSilences
    rw [if_pos hc]
  refine ⟨hfs, ?_⟩
  unfold pipeline
  rw [hfs]

/-- Witness for C6 on the empty diagnostic stream. -/
theorem claim6_witness :
    (startTimes []).zip (endTimes []) = []
    ∧ findSilences [] = Except.error 1
    ∧ pipeline [] 10 3 = Except.error 1 :=
  ⟨rfl, claim6_zero_silences_fatal [] 10 3 rfl⟩

/-- C7 counterexample: the stream-copy step (and likewise the duration
probe) runs with `check=True`, so a non-zero exit aborts even when the
diagnostic stream contains no error-indicating text — for returncode 1 and
an empty stream the pipeline still aborts, contradicting the claim that a
non-zero exit without such text does not abort. -/
theorem claim7_counterexample :
    occursIn errorPat [] = false
    ∧ occursIn failedPat [] = false
    ∧ streamCopy ⟨1, []⟩ = Except.error 1
    ∧ probeRun ⟨1, []⟩ = Except.error 1 := by
  refine ⟨rfl, rfl, ?_, ?_⟩ <;> rfl

/-- C7 (amended): only the silence-detection invocation (via
`run_command`) aborts exactly on a non-zero exit combined with
error-indicating text (`Error` or `failed`) in its diagnostic stream; the
duration probe and the stream copy use `check=True` and abort on any
non-zero exit regardless of the stream's content. -/
theorem claim7_abort_policy (r : CmdResult) :
    (runCommand r = Except.error 1 ↔
      r.returncode ≠ 0 ∧
        (occursIn errorPat r.stderr || occursIn failedPat r.stderr) = true)
    ∧ (streamCopy r = Except.error 1 ↔ r.returncode ≠ 0)
    ∧ (probeRun r = Except.error 1 ↔ r.returncode ≠ 0) := by
  refine ⟨?_, ?_, ?_⟩
  · unfold runCommand
    by_cases hrc : r.returncode ≠ 0
    · rw [if_pos hrc]
      by_cases htxt : (occursIn errorPat r.stderr ||
          occursIn failedPat r.stderr) = true
      · rw [if_pos htxt]
        simp [hrc, htxt]
      · rw [if_neg htxt]
        simp [hrc, htxt]
    · rw [if_neg hrc]
      simp [hrc]
  · unfold streamCopy
    by_cases hrc : r.returncode ≠ 0
    · rw [if_pos hrc]
      simp [hrc]
    · rw [if_neg hrc]
      simp [hrc]
  · unfold probeRun
    by_cases hrc : r.returncode ≠ 0
    · rw [if_pos hrc]
      simp [hrc]
    · rw [if_neg hrc]
      simp [hrc]

/-- C10: when the very first computed split point is less than 1.0 second
from position 0, no clip is planned and none is extracted, yet the
manifest (an empty array) is still produced and the run completes
successfully (`ok`, exit status 0). -/
theorem claim10_empty_success (out : List Marker) (total target : ℚ)
    (silences : List (ℚ × ℚ)) (hfs : findSilences out = Except.ok silences)
    (h : splitPoint total target silences 0 - 0 < 1) :
    plans total target silences = []
    ∧ manifestOf (plans total target silences) = []
    ∧ pipeline out total target = Except.ok ([], []) := by
  have h1 : splitLoop total target silences (planFuel total) 0 1 = some [] := by
    show splitLoop total target silences (total.num.toNat + 1) 0 1 = some []
    by_cases hlt : (0 : ℚ) < total
    · exact splitLoop_break total target silences _ _ _ hlt h
    · exact splitLoop_not_lt total target silences _ _ _ hlt
  have hp : plans total target silences = [] :=
    Option.some.inj ((plans_eq_splitLoop total target silences).symm.trans h1)
  refine ⟨hp, by rw [hp]; rfl, ?_⟩
  unfold pipeline
  rw [hfs]
  show Except.ok (plans total target silences,
    manifestOf (plans total target silences)) = Except.ok ([], [])
  rw [hp]
  rfl

/-- Witness for C10 at `total = 0.5` (shorter than the 1-second minimum). -/
theorem claim10_witness :
    findSilences [Marker.sstart 0.1, Marker.send 0.2] =
      Except.ok [(0.1, 0.2)]
    ∧ (splitPoint 0.5 300 [(0.1, 0.2)] 0 - 0 < 1)
    ∧ (plans 0.5 300 [(0.1, 0.2)] = []
    ∧ manifestOf (plans 0.5 300 [(0.1, 0.2)]) = []
    ∧ pipeline [Marker.sstart 0.1, Marker.send 0.2] 0.5 300 =
        Except.ok ([], [])) :=
  ⟨rfl, by norm_num [splitPoint],
    claim10_empty_success [Marker.sstart 0.1, Marker.send 0.2] 0.5 300
      [(0.1, 0.2)] rfl (by norm_num [splitPoint])⟩
